import Mathlib

/-!
Verification of the two-stage CipherB signal scanner.

This file embeds, in Lean, the core components of the repository:

* `SignalStore` — the SQLite-backed pending-signal store
  (`src/database/signal_manager.py`), with records carrying the columns of
  the `pending_signals` table and the operations `store_pending_signal`,
  `get_pending_signal`, `get_all_pending_signals`, `cancel_opposite_signal`,
  `delete_signal`, `cleanup_expired_signals`.  Timestamps are modelled as
  integers measured in hours (ISO-8601 strings compare lexicographically in
  chronological order, so an ordered integer clock is a faithful model of
  the `created_at < cutoff` comparisons the code performs).
* the Stage-1 detection flow of
  `EnhancedHighRisk15mAnalyzer.detect_new_cipherb_signals`
  (`src/enhanced_analyzer_15m.py`, lines 199-246), as `detectFlowPut`.
* the Heikin-Ashi transform (`src/utils/heikin_ashi.py`).
* the WaveTrend/CipherB oscillator and edge-triggered signal detection
  (`src/indicators/cipherb_fixed.py`), with prices as rationals and the
  leading NaN window of the pandas rolling mean made explicit as `Option`.
* the Stage-2 per-pending-signal steps of both confirmation variants
  (`src/enhanced_analyzer_15m.py` VWMA variant, `src/enhanced_analyzer_5m.py`
  EMA variant).
-/

namespace ScalpStore

/-- A row of the `pending_signals` table
(`signal_manager.py`, `init_database`).  `created_at`/`expires_at` are the
integer-hour model of the ISO timestamp strings; `direction` and `status`
are the literal strings the code stores. -/
structure Rec where
  signal_id : Nat
  symbol : String
  direction : String
  wt1 : ℚ
  wt2 : ℚ
  vwma_at_signal : ℚ
  current_price : ℚ
  exchange : String
  created_at : ℤ
  expires_at : ℤ
  status : String
  deriving DecidableEq, Repr

/-- The store: table rows in rowid (insertion) order plus the
AUTOINCREMENT counter for `signal_id`. -/
structure Store where
  rows : List Rec
  nextId : Nat
  deriving DecidableEq, Repr

/-- Fresh database as produced by `init_database` (AUTOINCREMENT starts
handing out ids from 1). -/
def Store.empty : Store := ⟨[], 1⟩

/-- Row matcher for `WHERE symbol = ? AND direction = ? AND status = 'MONITORING'`. -/
def rowMatch (sym dir : String) (r : Rec) : Bool :=
  r.symbol = sym && r.direction = dir && r.status = "MONITORING"

/-- Embeds `SignalManager.store_pending_signal`: inserts a row with
`created_at = now`, `expires_at = now + 12` hours (the 12 is the literal
`timedelta(hours=12)` of the source, not a configuration value) and the
default status `'MONITORING'`; returns the new row's id. -/
def store_pending_signal (now : ℤ) (sym dir : String) (w1 w2 vwma price : ℚ)
    (exch : String) (st : Store) : Nat × Store :=
  let r : Rec :=
    { signal_id := st.nextId, symbol := sym, direction := dir, wt1 := w1,
      wt2 := w2, vwma_at_signal := vwma, current_price := price,
      exchange := exch, created_at := now, expires_at := now + 12,
      status := "MONITORING" }
  (st.nextId, ⟨st.rows ++ [r], st.nextId + 1⟩)

/-- Embeds `SignalManager.get_pending_signal`: first row matching
(symbol, direction, MONITORING), else `None`. -/
def get_pending_signal (sym dir : String) (st : Store) : Option Rec :=
  st.rows.find? (rowMatch sym dir)

/-- Stable sort by `created_at` ascending (the `ORDER BY created_at ASC`
of `get_all_pending_signals`), as an insertion sort. -/
def insertByCreated (r : Rec) : List Rec → List Rec
  | [] => [r]
  | x :: xs =>
      if r.created_at < x.created_at then r :: x :: xs
      else x :: insertByCreated r xs

def sortByCreated : List Rec → List Rec
  | [] => []
  | x :: xs => insertByCreated x (sortByCreated xs)

/-- Embeds `SignalManager.get_all_pending_signals`: all MONITORING rows ordered by
`created_at` ascending. -/
def get_all_pending_signals (st : Store) : List Rec :=
  sortByCreated (st.rows.filter (fun r => r.status = "MONITORING"))

/-- Embeds `SignalManager.cancel_opposite_signal symbol direction`: computes
`opposite_direction = 'SELL' if direction == 'BUY' else 'BUY'` and deletes
the MONITORING rows for (symbol, opposite_direction); returns whether any
row existed. -/
def cancel_opposite_signal (sym dir : String) (st : Store) : Bool × Store :=
  let opp := if dir = "BUY" then "SELL" else "BUY"
  match st.rows.find? (rowMatch sym opp) with
  | some _ => (true, ⟨st.rows.filter (fun r => !(rowMatch sym opp r)), st.nextId⟩)
  | none => (false, st)

/-- Embeds `SignalManager.delete_signal`: delete by id, returning whether a row
was affected (`cursor.rowcount > 0`). -/
def delete_signal (id : Nat) (st : Store) : Bool × Store :=
  (decide (0 < st.rows.countP (fun r => r.signal_id = id)),
   ⟨st.rows.filter (fun r => !(decide (r.signal_id = id))), st.nextId⟩)

/-- Predicate of the `cleanup_expired_signals` DELETE:
`created_at < cutoff AND status = 'MONITORING'`. -/
def expired (cutoff : ℤ) (r : Rec) : Bool :=
  r.created_at < cutoff && r.status = "MONITORING"

/-- Embeds `SignalManager.cleanup_expired_signals`: with `cutoff = now - hours`,
counts the MONITORING rows with `created_at < cutoff`, deletes them when
the count is positive, and returns the count. -/
def cleanup_expired_signals (now : ℤ) (hours : ℤ) (st : Store) : Nat × Store :=
  let cutoff := now - hours
  let count := st.rows.countP (expired cutoff)
  if 0 < count then
    (count, ⟨st.rows.filter (fun r => !(expired cutoff r)), st.nextId⟩)
  else
    (count, st)

/-- The Stage-1 flow of `detect_new_cipherb_signals` for one fresh signal
(`enhanced_analyzer_15m.py` lines 199-246): on a buy signal the analyzer
calls `cancel_opposite_signal(symbol, 'SELL')` and on a sell signal
`cancel_opposite_signal(symbol, 'BUY')` (it passes the direction it wants
cancelled, which `cancel_opposite_signal` flips once more), then checks
`get_pending_signal(symbol, direction)` and inserts only when that lookup
returns `None`. -/
def detectFlowPut (now : ℤ) (sym dir : String) (w1 w2 vwma price : ℚ)
    (exch : String) (st : Store) : Store :=
  let arg := if dir = "BUY" then "SELL" else "BUY"
  let st1 := (cancel_opposite_signal sym arg st).2
  match get_pending_signal sym dir st1 with
  | some _ => st1
  | none => (store_pending_signal now sym dir w1 w2 vwma price exch st1).2

/-- Store states reachable from a fresh database through the operations
the two passes perform on it: the Stage-1 put flow, opposite-direction
cancellation, deletion by id, and the expiry sweep. -/
inductive Reachable : Store → Prop
  | empty : Reachable Store.empty
  | put (now : ℤ) (sym dir : String) (w1 w2 vwma price : ℚ) (exch : String)
      (st : Store) : Reachable st →
      Reachable (detectFlowPut now sym dir w1 w2 vwma price exch st)
  | cancel (sym dir : String) (st : Store) : Reachable st →
      Reachable (cancel_opposite_signal sym dir st).2
  | del (id : Nat) (st : Store) : Reachable st →
      Reachable (delete_signal id st).2
  | sweep (now hours : ℤ) (st : Store) : Reachable st →
      Reachable (cleanup_expired_signals now hours st).2

/-- Rewrite a record's `expires_at` field, leaving every other column
unchanged (used to state that no store operation reads `expires_at`). -/
def setExpires (f : Rec → ℤ) (r : Rec) : Rec := { r with expires_at := f r }

/-- Rewrite `expires_at` across a whole store. -/
def mapExpires (f : Rec → ℤ) (st : Store) : Store :=
  ⟨st.rows.map (setExpires f), st.nextId⟩

/-- A concrete MONITORING record created at hour 0 (13 hours before a
sweep at hour 13). -/
def recA : Rec :=
  ⟨1, "BTCUSDT", "BUY", -70, -65, 100, 99, "BingX", 0, 12, "MONITORING"⟩

/-- A concrete MONITORING record created at hour 2 (11 hours before a
sweep at hour 13). -/
def recB : Rec :=
  ⟨2, "ETHUSDT", "SELL", 70, 65, 50, 51, "KuCoin", 2, 14, "MONITORING"⟩

/-- A store holding exactly `recA`. -/
def storeA : Store := ⟨[recA], 2⟩

end ScalpStore

namespace ScalpHA

/-- An OHLC candle with rational prices (one row of the pandas frame,
column names as in the source). -/
structure Candle where
  Open : ℚ
  High : ℚ
  Low : ℚ
  Close : ℚ
  deriving DecidableEq, Repr

/-- First Heikin-Ashi row of `convert_to_heikin_ashi`
(`heikin_ashi.py` lines 41-45): `ha_close = (O+H+L+C)/4`,
`ha_open = (O+C)/2`, and `ha_high`/`ha_low` are copied from the raw
`High`/`Low` of the first candle. -/
def haFirst (x : Candle) : Candle :=
  { Open := (x.Open + x.Close) / 2
    High := x.High
    Low := x.Low
    Close := (x.Open + x.High + x.Low + x.Close) / 4 }

/-- Loop body of `convert_to_heikin_ashi` (lines 48-68): the next
Heikin-Ashi candle from the previous Heikin-Ashi candle and the current
raw candle. -/
def haStep (prev x : Candle) : Candle :=
  let hc := (x.Open + x.High + x.Low + x.Close) / 4
  let ho := (prev.Open + prev.Close) / 2
  { Open := ho
    High := max x.High (max ho hc)
    Low := min x.Low (min ho hc)
    Close := hc }

/-- Tail of the conversion loop, carrying the previous Heikin-Ashi candle. -/
def haGo (prev : Candle) : List Candle → List Candle
  | [] => []
  | y :: ys => haStep prev y :: haGo (haStep prev y) ys

/-- Embeds `convert_to_heikin_ashi`: on the empty frame the function returns its
input unchanged (the early `return df`); otherwise the first row is seeded
by `haFirst` and the rest follow the `haStep` recurrence. -/
def convert_to_heikin_ashi : List Candle → List Candle
  | [] => []
  | x :: rest => haFirst x :: haGo (haFirst x) rest

/-- A raw input cell as seen by `is_valid_ohlc`: `none` models a field
that is missing or non-numeric, `some q` a numeric price. -/
def cellOK (v : Option ℚ) : Bool :=
  match v with
  | some q => decide (0 ≤ q)
  | none => false

/-- A raw input row whose OHLC fields may be missing or non-numeric. -/
structure RawCandle where
  Open? : Option ℚ
  High? : Option ℚ
  Low? : Option ℚ
  Close? : Option ℚ
  deriving DecidableEq, Repr

/-- Embeds `is_valid_ohlc` (`heikin_ashi.py` lines 86-118): the frame is valid
when it is non-empty, every required OHLC field is present and numeric,
and no price is negative. -/
def is_valid_ohlc (df : List RawCandle) : Bool :=
  !df.isEmpty &&
    df.all (fun r => cellOK r.Open? && cellOK r.High? && cellOK r.Low? && cellOK r.Close?)

/-- Projection used once validity is established (every field is `some`;
the default is never read on valid input). -/
def extractCandle (r : RawCandle) : Candle :=
  ⟨r.Open?.getD 0, r.High?.getD 0, r.Low?.getD 0, r.Close?.getD 0⟩

/-- Embeds `prepare_heikin_ashi_data` (`heikin_ashi.py` lines 120-165): returns
`None` on an empty frame, `None` when `is_valid_ohlc` rejects the frame,
and otherwise the converted Heikin-Ashi frame.  No exception escapes: the
function signals every invalid input by returning `None`. -/
def prepare_heikin_ashi_data (df : List RawCandle) : Option (List Candle) :=
  if df.isEmpty then none
  else if is_valid_ohlc df then some (convert_to_heikin_ashi (df.map extractCandle))
  else none

end ScalpHA

namespace ScalpCipherB

open ScalpHA (Candle)

/-- Oscillator configuration (`config['cipherb']`):
`wt_channel_len = 9`, `wt_average_len = 12`, `wt_ma_len = 3`,
`oversold_threshold = -60`, `overbought_threshold = 60` by default. -/
structure Config where
  wt_channel_len : ℕ
  wt_average_len : ℕ
  wt_ma_len : ℕ
  oversold_threshold : ℚ
  overbought_threshold : ℚ
  deriving DecidableEq, Repr

/-- Recursion of `series.ewm(span=period, adjust=False).mean()`:
`y[i] = α·x[i] + (1-α)·y[i-1]`. -/
def emaGo (α prev : ℚ) : List ℚ → List ℚ
  | [] => []
  | x :: xs => (α * x + (1 - α) * prev) :: emaGo α (α * x + (1 - α) * prev) xs

/-- Embeds `ema(series, period)` — pandas exponential moving average with
`adjust=False`, smoothing factor `α = 2/(period+1)`, seeded with the first
element. -/
def ema (period : ℕ) : List ℚ → List ℚ
  | [] => []
  | x :: xs => x :: emaGo (2 / ((period : ℚ) + 1)) x xs

/-- Embeds `sma(series, period)` at one index — pandas
`series.rolling(window=period).mean()`: `none` (NaN) while fewer than
`period` values are available, else the mean of the trailing window. -/
def smaAt (window : ℕ) (xs : List ℚ) (i : ℕ) : Option ℚ :=
  if i + 1 < window then none
  else some ((((xs.drop (i + 1 - window)).take window).sum) / (window : ℚ))

/-- Embeds `hlc3 = (High + Low + Close) / 3` (the `wtMASource`). -/
def hlc3 (src : List Candle) : List ℚ :=
  src.map (fun x => (x.High + x.Low + x.Close) / 3)

/-- Embeds `wavetrend`, first output: `esa = EMA(hlc3, channel)`,
`de = EMA(|hlc3 − esa|, channel)`, `ci = (hlc3 − esa)/(0.015·de)`
(0.015 = 3/200; when `de = 0` the numerator is 0 as well — pandas yields
NaN there, the rational model the junk value 0), `wt1 = EMA(ci, average)`. -/
def wt1 (src : List Candle) (cfg : Config) : List ℚ :=
  let h := hlc3 src
  let esa := ema cfg.wt_channel_len h
  let de := ema cfg.wt_channel_len (List.zipWith (fun a b => |a - b|) h esa)
  let ci := List.zipWith (fun (he : ℚ × ℚ) d => (he.1 - he.2) / (3 / 200 * d)) (h.zip esa) de
  ema cfg.wt_average_len ci

/-- Per-bar accessor for `wt1` (`none` out of range). -/
def w1A (src : List Candle) (cfg : Config) : ℕ → Option ℚ :=
  fun i => (wt1 src cfg).get? i

/-- Per-bar accessor for `wt2 = SMA(wt1, ma_len)`; `none` both out of
range and on the leading NaN window of the rolling mean. -/
def w2A (src : List Candle) (cfg : Config) : ℕ → Option ℚ :=
  fun i => if i < (wt1 src cfg).length then smaAt cfg.wt_ma_len (wt1 src cfg) i else none

/-- Embeds `a ≤ b` on pandas values: any comparison against NaN is `False`. -/
def oleB : Option ℚ → Option ℚ → Bool
  | some a, some b => decide (a ≤ b)
  | _, _ => false

/-- Embeds `a < b` on pandas values. -/
def oltB : Option ℚ → Option ℚ → Bool
  | some a, some b => decide (a < b)
  | _, _ => false

/-- Embeds `cross_any` (`cipherb_fixed.py` lines 81-82):
`((wt1.shift(1) <= wt2.shift(1)) & (wt1 > wt2)) |
 ((wt1.shift(1) >= wt2.shift(1)) & (wt1 < wt2))`;
at bar 0 the shifted values are NaN, so no cross. -/
def cross_any (w1 w2 : ℕ → Option ℚ) : ℕ → Bool
  | 0 => false
  | j + 1 =>
      (oleB (w1 j) (w2 j) && oltB (w2 (j + 1)) (w1 (j + 1))) ||
      (oleB (w2 j) (w1 j) && oltB (w1 (j + 1)) (w2 (j + 1)))

/-- Embeds `(wt2 - wt1) <= 0` with NaN-propagating subtraction. -/
def diffLe0 (a b : Option ℚ) : Bool :=
  match a, b with
  | some x, some y => decide (x - y ≤ 0)
  | _, _ => false

/-- Embeds `(wt2 - wt1) >= 0` with NaN-propagating subtraction. -/
def diffGe0 (a b : Option ℚ) : Bool :=
  match a, b with
  | some x, some y => decide (0 ≤ x - y)
  | _, _ => false

/-- Embeds `cross_up = cross_any & ((wt2 - wt1) <= 0)`. -/
def cross_up (w1 w2 : ℕ → Option ℚ) (i : ℕ) : Bool :=
  cross_any w1 w2 i && diffLe0 (w2 i) (w1 i)

/-- Embeds `cross_down = cross_any & ((wt2 - wt1) >= 0)`. -/
def cross_down (w1 w2 : ℕ → Option ℚ) (i : ℕ) : Bool :=
  cross_any w1 w2 i && diffGe0 (w2 i) (w1 i)

/-- Embeds `oversold_current = (wt1 <= oversold) & (wt2 <= oversold)`. -/
def oversold_current (w1 w2 : ℕ → Option ℚ) (os : ℚ) (i : ℕ) : Bool :=
  oleB (w1 i) (some os) && oleB (w2 i) (some os)

/-- Embeds `overbought_current = (wt2 >= overbought) & (wt1 >= overbought)`. -/
def overbought_current (w1 w2 : ℕ → Option ℚ) (ob : ℚ) (i : ℕ) : Bool :=
  oleB (some ob) (w2 i) && oleB (some ob) (w1 i)

/-- Embeds `buy_condition = cross_any & cross_up & oversold_current`. -/
def buy_condition (w1 w2 : ℕ → Option ℚ) (os : ℚ) (i : ℕ) : Bool :=
  cross_any w1 w2 i && cross_up w1 w2 i && oversold_current w1 w2 os i

/-- Embeds `sell_condition = cross_any & cross_down & overbought_current`. -/
def sell_condition (w1 w2 : ℕ → Option ℚ) (ob : ℚ) (i : ℕ) : Bool :=
  cross_any w1 w2 i && cross_down w1 w2 i && overbought_current w1 w2 ob i

/-- Embeds `condition.shift(1).fillna(False)`: the condition one bar earlier,
`False` before the first bar. -/
def prevCond (c : ℕ → Bool) : ℕ → Bool
  | 0 => false
  | i + 1 => c i

/-- Embeds `buySignal = buy_condition & ~buy_condition.shift(1).fillna(False)`
(line 98). -/
def buySignalAt (w1 w2 : ℕ → Option ℚ) (os : ℚ) (i : ℕ) : Bool :=
  buy_condition w1 w2 os i && !(prevCond (buy_condition w1 w2 os) i)

/-- Embeds `sellSignal = sell_condition & ~sell_condition.shift(1).fillna(False)`
(line 99). -/
def sellSignalAt (w1 w2 : ℕ → Option ℚ) (ob : ℚ) (i : ℕ) : Bool :=
  sell_condition w1 w2 ob i && !(prevCond (sell_condition w1 w2 ob) i)

/-- The per-bar columns of the `signals_df` frame built by
`detect_cipherb_signals`. -/
structure SignalsDF where
  wt1 : List ℚ
  wt2 : List (Option ℚ)
  buySignal : List Bool
  sellSignal : List Bool
  deriving DecidableEq, Repr

/-- Embeds `detect_cipherb_signals(ha_data, config)`: WaveTrend followed by the
vectorized cross/gate/edge logic, assembled bar by bar. -/
def detect_cipherb_signals (ha : List Candle) (cfg : Config) : SignalsDF :=
  let w1 := wt1 ha cfg
  { wt1 := w1
    wt2 := (List.range w1.length).map (smaAt cfg.wt_ma_len w1)
    buySignal :=
      (List.range w1.length).map (buySignalAt (w1A ha cfg) (w2A ha cfg) cfg.oversold_threshold)
    sellSignal :=
      (List.range w1.length).map (sellSignalAt (w1A ha cfg) (w2A ha cfg) cfg.overbought_threshold) }

/-- Modelled from the spec (§4.2 step 6), for comparison with the code's
`cross_any`: "a cross occurs at bar i when sign(wt1[i-1]-wt2[i-1]) differs
from sign(wt1[i]-wt2[i]) (inclusive of equality on either side, i.e. using
≤/≥ comparisons, not strict <)" — inclusive comparisons on the previous
AND the current bar. -/
def cross_any_spec (w1 w2 : ℕ → Option ℚ) : ℕ → Bool
  | 0 => false
  | j + 1 =>
      (oleB (w1 j) (w2 j) && oleB (w2 (j + 1)) (w1 (j + 1))) ||
      (oleB (w2 j) (w1 j) && oleB (w1 (j + 1)) (w2 (j + 1)))

/-- The default configuration of `enhanced_config.yaml` /
`load_default_config`. -/
def cfgDefault : Config := ⟨9, 12, 3, -60, 60⟩

/-- A configuration with short windows and thresholds that never gate
(any oscillator value is ≤ 1000 and ≥ -1000), used to exhibit concrete
signal episodes. -/
def cfgEasy : Config := ⟨2, 2, 2, 1000, -1000⟩

/-- A degenerate candle whose four prices coincide. -/
def flat (v : ℚ) : Candle := ⟨v, v, v, v⟩

/-- A concrete oscillating price series. -/
def wiggle : List Candle :=
  [flat 0, flat 10, flat 0, flat 10, flat 0, flat 10, flat 0, flat 10]

end ScalpCipherB

namespace ScalpStage2

open ScalpStore

/-- Embeds `EnhancedHighRisk15mAnalyzer.calculate_vwma_21` on a list of
(Close, Volume) pairs: `None` with fewer than 21 rows, else
`sum(close·volume)/sum(volume)` over the trailing 21-row window, with
`None` when the result is NaN or ≤ 0 (an all-zero volume window gives
NaN in pandas and the junk value 0 here — both are rejected). -/
def calculate_vwma_21 (df : List (ℚ × ℚ)) : Option ℚ :=
  if df.length < 21 then none
  else
    let lastW := df.drop (df.length - 21)
    let pv := (lastW.map (fun r => r.1 * r.2)).sum
    let v := (lastW.map (fun r => r.2)).sum
    let vwma := pv / v
    if vwma ≤ 0 then none else some vwma

/-- One iteration of
`EnhancedHighRisk15mAnalyzer.check_vwma_crosses_for_pending_signals`
(lines 277-336) for a single pending signal: `fetch` is the result of
`fetch_15m_data` (`none` = no price data).  On fetch failure or VWMA
failure the pending signal is deleted; on a confirmed cross it is deleted
and an execution signal is emitted; otherwise the store is untouched.
Returns the store and whether an execution signal was produced. -/
def step15m (fetch : Option (List (ℚ × ℚ))) (p : Rec) (st : Store) : Store × Bool :=
  match fetch with
  | none => ((delete_signal p.signal_id st).2, false)
  | some df =>
    match calculate_vwma_21 df with
    | none => ((delete_signal p.signal_id st).2, false)
    | some w =>
      let close := (df.map Prod.fst).getLast?.getD 0
      if (p.direction = "BUY" && decide (w < close)) ||
         (p.direction = "SELL" && decide (close < w)) then
        ((delete_signal p.signal_id st).2, true)
      else (st, false)

/-- Embeds `EMAConfirmationAnalyzer5m.detect_ema_crossover`: scan the last three
bars for a fast/slow EMA crossover in the signal's direction. -/
def detect_ema_crossover (fastL slowL : List ℚ) (dir : String) : Bool :=
  (List.range fastL.length).any fun i =>
    decide (max 1 (fastL.length - 3) ≤ i) &&
      (match fastL.get? i, slowL.get? i, fastL.get? (i - 1), slowL.get? (i - 1) with
       | some cf, some cs, some pf, some ps =>
           (dir = "BUY" && decide (cs < cf) && decide (pf ≤ ps)) ||
           (dir = "SELL" && decide (cf < cs) && decide (ps ≤ pf))
       | _, _, _, _ => false)

/-- Embeds `EMAConfirmationAnalyzer5m.analyze_pending_signal` (lines 180-219) on
the close series of the fetched 5m frame: returns `None` — leaving the
store untouched — when the fetch returns nothing or an empty frame; when
`calculate_emas` cannot compute the EMAs (fewer rows than the slow
period, so the frame comes back without EMA columns and
`detect_ema_crossover` reports no cross); or when no crossover matches.
Otherwise the confirmation carries the current close. -/
def analyze_pending_signal_5m (fast slow : ℕ) (fetch : Option (List ℚ))
    (dir : String) : Option ℚ :=
  match fetch with
  | none => none
  | some closes =>
    if closes.isEmpty then none
    else
      let has :=
        if closes.length < max fast slow then false
        else detect_ema_crossover (ScalpCipherB.ema fast closes) (ScalpCipherB.ema slow closes) dir
      if has then some (closes.getLast?.getD 0) else none

/-- One iteration of `EMAConfirmationAnalyzer5m.process_pending_signals`
for a single pending signal.  When `analyze_pending_signal` returns `None`
the loop moves on without touching the store.  When it returns a
confirmation, the loop calls `signal_manager.confirm_signal` — a method
`SignalManager` does not define — so the call raises `AttributeError`,
the per-signal `except` handler catches it, and the store is again left
unchanged.  The 5m pass therefore never mutates the store. -/
def step5m (fast slow : ℕ) (fetch : Option (List ℚ)) (p : Rec) (st : Store) : Store :=
  match analyze_pending_signal_5m fast slow fetch p.direction with
  | none => st
  | some _ => st

end ScalpStage2

/-! ## Store lemmas and theorems -/

namespace ScalpStore

lemma countP_filter_le (p q : Rec → Bool) (l : List Rec) :
    (l.filter q).countP p ≤ l.countP p := by
  rw [List.countP_filter]
  exact List.countP_mono_left fun x _ h => ((Bool.and_eq_true _ _).mp h).1

lemma cancel_countP_le (sym dir : String) (st : Store) (p : Rec → Bool) :
    (cancel_opposite_signal sym dir st).2.rows.countP p ≤ st.rows.countP p := by
  simp only [cancel_opposite_signal]
  split
  · exact countP_filter_le _ _ _
  · exact le_rfl

lemma delete_countP_le (id : Nat) (st : Store) (p : Rec → Bool) :
    (delete_signal id st).2.rows.countP p ≤ st.rows.countP p := by
  simp only [delete_signal]
  exact countP_filter_le _ _ _

lemma sweep_countP_le (now hours : ℤ) (st : Store) (p : Rec → Bool) :
    (cleanup_expired_signals now hours st).2.rows.countP p ≤ st.rows.countP p := by
  simp only [cleanup_expired_signals]
  split
  · exact countP_filter_le _ _ _
  · exact le_rfl

lemma store_countP (now : ℤ) (sym0 dir0 : String) (w1 w2 vwma price : ℚ)
    (exch : String) (st : Store) (sym dir : String) :
    (store_pending_signal now sym0 dir0 w1 w2 vwma price exch st).2.rows.countP
        (rowMatch sym dir)
      = st.rows.countP (rowMatch sym dir) +
          (if sym0 = sym ∧ dir0 = dir then 1 else 0) := by
  simp only [store_pending_signal, List.countP_append]
  congr 1
  by_cases h : sym0 = sym ∧ dir0 = dir
  · rw [if_pos h]
    simp [List.countP_cons, rowMatch, h.1, h.2]
  · rw [if_neg h]
    rw [Decidable.not_and_iff_or_not] at h
    rcases h with h | h <;> simp [List.countP_cons, rowMatch, h]

lemma get_none_countP_zero (sym dir : String) (st : Store)
    (h : get_pending_signal sym dir st = none) :
    st.rows.countP (rowMatch sym dir) = 0 := by
  simp only [get_pending_signal] at h
  rw [List.countP_eq_zero]
  exact List.find?_eq_none.mp h

/-- C2.  Per-(symbol, direction) uniqueness: every store state reachable
through the Stage-1 detection flow (which checks `get_pending_signal`
before inserting), deletion, cancellation and the expiry sweep has at
most one MONITORING record per (symbol, direction) pair. -/
theorem pending_unique_per_pair :
    ∀ st : Store, Reachable st → ∀ sym dir : String,
      st.rows.countP (rowMatch sym dir) ≤ 1 := by
  intro st h
  induction h with
  | empty => intro sym dir; simp [Store.empty]
  | put now sym0 dir0 w1 w2 vwma price exch st0 _ ih =>
    intro sym dir
    have hle : ((cancel_opposite_signal sym0
          (if dir0 = "BUY" then "SELL" else "BUY") st0).2).rows.countP
            (rowMatch sym dir) ≤ 1 :=
      le_trans (cancel_countP_le _ _ _ _) (ih sym dir)
    simp only [detectFlowPut]
    split
    · exact hle
    · rename_i hnone
      rw [store_countP]
      by_cases hc : sym0 = sym ∧ dir0 = dir
      · rw [if_pos hc]
        have h0 : ((cancel_opposite_signal sym0
              (if dir0 = "BUY" then "SELL" else "BUY") st0).2).rows.countP
                (rowMatch sym dir) = 0 := by
          rcases hc with ⟨h1, h2⟩
          subst h1; subst h2
          exact get_none_countP_zero _ _ _ hnone
        omega
      · rw [if_neg hc]
        omega
  | cancel sym0 dir0 st0 _ ih =>
    intro sym dir
    exact le_trans (cancel_countP_le _ _ _ _) (ih sym dir)
  | del id st0 _ ih =>
    intro sym dir
    exact le_trans (delete_countP_le _ _ _) (ih sym dir)
  | sweep now hours st0 _ ih =>
    intro sym dir
    exact le_trans (sweep_countP_le _ _ _ _) (ih sym dir)

/-- Witness for C2 at a concrete reachable state. -/
theorem pending_unique_per_pair_witness :
    (detectFlowPut 0 "BTCUSDT" "BUY" (-70) (-65) 100 99 "BingX"
        Store.empty).rows.countP (rowMatch "BTCUSDT" "BUY") ≤ 1 :=
  pending_unique_per_pair _
    (Reachable.put 0 "BTCUSDT" "BUY" (-70) (-65) 100 99 "BingX"
      Store.empty Reachable.empty) "BTCUSDT" "BUY"

/-- C1.  Evaluation of the code at the failing input: from an empty store,
the Stage-1 flow `put(BTCUSDT, BUY)` followed by `put(BTCUSDT, SELL)`
leaves BOTH directions active — `get(BTCUSDT, BUY)` still returns the old
BUY record instead of `None`, because the analyzer passes the direction it
wants cancelled to `cancel_opposite_signal`, which flips it once more, so
the same-direction record is deleted and the opposite one survives. -/
theorem stage1_put_retains_opposite_direction :
    (get_pending_signal "BTCUSDT" "BUY"
        (detectFlowPut 1 "BTCUSDT" "SELL" 70 65 100 101 "BingX"
          (detectFlowPut 0 "BTCUSDT" "BUY" (-70) (-65) 100 99 "BingX"
            Store.empty))).isSome = true ∧
    get_pending_signal "BTCUSDT" "SELL"
        (detectFlowPut 1 "BTCUSDT" "SELL" 70 65 100 101 "BingX"
          (detectFlowPut 0 "BTCUSDT" "BUY" (-70) (-65) 100 99 "BingX"
            Store.empty))
      = some ⟨2, "BTCUSDT", "SELL", 70, 65, 100, 101, "BingX", 1, 13,
          "MONITORING"⟩ := by
  decide

/-- C7.  `cleanup_expired_signals` deletes exactly the MONITORING rows
with `created_at < now - hours` and returns their number; concretely, at
`now = 13` with a 12-hour horizon, a record created at hour 0 (13 hours
ago) is removed and one created at hour 2 (11 hours ago) is retained. -/
theorem cleanup_expired_semantics :
    (∀ (now hours : ℤ) (st : Store),
        (cleanup_expired_signals now hours st).1
            = st.rows.countP (expired (now - hours)) ∧
        (cleanup_expired_signals now hours st).2.rows
            = st.rows.filter (fun r => !(expired (now - hours) r)) ∧
        (cleanup_expired_signals now hours st).2.nextId = st.nextId) ∧
    recA ∉ (cleanup_expired_signals 13 12 ⟨[recA, recB], 3⟩).2.rows ∧
    recB ∈ (cleanup_expired_signals 13 12 ⟨[recA, recB], 3⟩).2.rows ∧
    (cleanup_expired_signals 13 12 ⟨[recA, recB], 3⟩).1 = 1 := by
  refine ⟨?_, by decide, by decide, by decide⟩
  intro now hours st
  simp only [cleanup_expired_signals]
  split
  · exact ⟨rfl, rfl, rfl⟩
  · rename_i hnot
    have h0 : st.rows.countP (expired (now - hours)) = 0 := by omega
    refine ⟨rfl, ?_, rfl⟩
    have hall := List.countP_eq_zero.mp h0
    exact (List.filter_eq_self.mpr fun a ha => by
      simpa using hall a ha).symm

end ScalpStore

namespace ScalpStore

@[simp] lemma setExpires_symbol (f : Rec → ℤ) (r : Rec) :
    (setExpires f r).symbol = r.symbol := rfl

@[simp] lemma setExpires_direction (f : Rec → ℤ) (r : Rec) :
    (setExpires f r).direction = r.direction := rfl

@[simp] lemma setExpires_status (f : Rec → ℤ) (r : Rec) :
    (setExpires f r).status = r.status := rfl

@[simp] lemma setExpires_created (f : Rec → ℤ) (r : Rec) :
    (setExpires f r).created_at = r.created_at := rfl

@[simp] lemma setExpires_id (f : Rec → ℤ) (r : Rec) :
    (setExpires f r).signal_id = r.signal_id := rfl

lemma rowMatch_setExpires (sym dir : String) (f : Rec → ℤ) (r : Rec) :
    rowMatch sym dir (setExpires f r) = rowMatch sym dir r := rfl

lemma expired_setExpires (c : ℤ) (f : Rec → ℤ) (r : Rec) :
    expired c (setExpires f r) = expired c r := rfl

lemma insertByCreated_map (f : Rec → ℤ) (r : Rec) (l : List Rec) :
    insertByCreated (setExpires f r) (l.map (setExpires f))
      = (insertByCreated r l).map (setExpires f) := by
  induction l with
  | nil => rfl
  | cons x xs ih =>
    simp only [List.map_cons, insertByCreated, setExpires_created]
    by_cases h : r.created_at < x.created_at
    · rw [if_pos h, if_pos h]
      simp
    · rw [if_neg h, if_neg h, List.map_cons, ih]

lemma sortByCreated_map (f : Rec → ℤ) (l : List Rec) :
    sortByCreated (l.map (setExpires f)) = (sortByCreated l).map (setExpires f) := by
  induction l with
  | nil => rfl
  | cons x xs ih =>
    simp only [List.map_cons, sortByCreated, ih, insertByCreated_map]

/-- C10.  Every inserted record has `expires_at = created_at + 12` hours
(the horizon is the hardcoded `timedelta(hours=12)`), and no store
operation reads `expires_at`: lookup, listing, deletion and the expiry
sweep all commute with an arbitrary rewrite of the `expires_at` column
(the sweep compares only `created_at` against `now - hours`). -/
theorem store_expiry_hardcoded_and_unused :
    (∀ (now : ℤ) (sym dir : String) (w1 w2 vwma price : ℚ) (exch : String)
        (st : Store), ∃ r : Rec,
        (store_pending_signal now sym dir w1 w2 vwma price exch st).2.rows
            = st.rows ++ [r] ∧
        r.created_at = now ∧ r.expires_at = r.created_at + 12) ∧
    (∀ (f : Rec → ℤ) (sym dir : String) (st : Store),
        get_pending_signal sym dir (mapExpires f st)
          = (get_pending_signal sym dir st).map (setExpires f)) ∧
    (∀ (f : Rec → ℤ) (st : Store),
        get_all_pending_signals (mapExpires f st)
          = (get_all_pending_signals st).map (setExpires f)) ∧
    (∀ (f : Rec → ℤ) (id : Nat) (st : Store),
        (delete_signal id (mapExpires f st)).1 = (delete_signal id st).1 ∧
        (delete_signal id (mapExpires f st)).2
          = mapExpires f (delete_signal id st).2) ∧
    (∀ (f : Rec → ℤ) (now hours : ℤ) (st : Store),
        (cleanup_expired_signals now hours (mapExpires f st)).1
          = (cleanup_expired_signals now hours st).1 ∧
        (cleanup_expired_signals now hours (mapExpires f st)).2
          = mapExpires f (cleanup_expired_signals now hours st).2) := by
  refine ⟨?_, ?_, ?_, ?_, ?_⟩
  · intro now sym dir w1 w2 vwma price exch st
    exact ⟨_, rfl, rfl, rfl⟩
  · intro f sym dir st
    simp only [get_pending_signal, mapExpires, List.find?_map]
    congr 1
  · intro f st
    simp only [get_all_pending_signals, mapExpires, List.filter_map]
    have hpred : (fun r : Rec => (r.status = "MONITORING" : Bool)) ∘ setExpires f
        = fun r : Rec => (r.status = "MONITORING" : Bool) := rfl
    rw [hpred, sortByCreated_map]
  · intro f id st
    constructor
    · simp only [delete_signal, mapExpires, List.countP_map]
      congr 1
    · simp only [delete_signal, mapExpires, List.filter_map]
      congr 1
  · intro f now hours st
    have hcount : ((mapExpires f st).rows).countP (expired (now - hours))
        = st.rows.countP (expired (now - hours)) := by
      simp only [mapExpires, List.countP_map]
      congr 1
    constructor
    · simp only [cleanup_expired_signals, hcount]
      split <;> rfl
    · simp only [cleanup_expired_signals, hcount]
      split
      · simp only [mapExpires, List.filter_map]
        congr 1
      · rfl

end ScalpStore


/-! ## Heikin-Ashi lemmas and theorems -/

namespace ScalpHA

lemma haGo_length (p : Candle) (l : List Candle) :
    (haGo p l).length = l.length := by
  induction l generalizing p with
  | nil => rfl
  | cons y ys ih => simp [haGo, ih]

lemma haGo_zero (p : Candle) (l : List Candle) :
    (haGo p l)[0]? = l[0]?.map (haStep p) := by
  cases l with
  | nil => rfl
  | cons y ys => simp [haGo]

lemma haGo_adj (l : List Candle) (p : Candle) (i : ℕ) :
    (haGo p l)[i + 1]?
      = (haGo p l)[i]?.bind (fun prev => l[i + 1]?.map (haStep prev)) := by
  induction l generalizing p i with
  | nil => rfl
  | cons y ys ih =>
    cases i with
    | zero =>
      simp [haGo, haGo_zero]
    | succ j =>
      simp only [haGo, List.getElem?_cons_succ]
      exact ih (haStep p y) j

lemma convert_length (xs : List Candle) :
    (convert_to_heikin_ashi xs).length = xs.length := by
  cases xs <;> simp [convert_to_heikin_ashi, haGo_length]

lemma convert_zero (x0 : Candle) (rest : List Candle) :
    (convert_to_heikin_ashi (x0 :: rest))[0]? = some (haFirst x0) := by
  simp [convert_to_heikin_ashi]

lemma convert_adj (xs : List Candle) (i : ℕ) :
    (convert_to_heikin_ashi xs)[i + 1]?
      = (convert_to_heikin_ashi xs)[i]?.bind
          (fun p => xs[i + 1]?.map (haStep p)) := by
  cases xs with
  | nil => rfl
  | cons x rest =>
    cases i with
    | zero =>
      simp [convert_to_heikin_ashi, haGo_zero]
    | succ j =>
      simp only [convert_to_heikin_ashi, List.getElem?_cons_succ]
      exact haGo_adj rest (haFirst x) j

/-- C5 counterexample.  The input row (Open 10, High 5, Low 5, Close 10)
passes `is_valid_ohlc` (all fields present, numeric and non-negative),
yet at bar 0 the code copies `High` verbatim (ha_high = 5) while the
claimed formula `max(high, ha_open, ha_close)` gives
`max 5 (max 10 (15/2)) = 10`. -/
theorem heikin_ashi_first_bar_counterexample :
    is_valid_ohlc [⟨some 10, some 5, some 5, some 10⟩] = true ∧
    convert_to_heikin_ashi [⟨10, 5, 5, 10⟩] = [⟨10, 5, 5, 15 / 2⟩] ∧
    (Candle.High ⟨10, 5, 5, 15 / 2⟩
      ≠ max (5 : ℚ) (max (Candle.Open ⟨10, 5, 5, 15 / 2⟩)
          (Candle.Close ⟨10, 5, 5, 15 / 2⟩))) := by
  refine ⟨by decide, by norm_num [convert_to_heikin_ashi, haGo, haFirst], ?_⟩
  have h1 : max (Candle.Open ⟨10, 5, 5, 15 / 2⟩) (Candle.Close ⟨10, 5, 5, 15 / 2⟩)
      = (10 : ℚ) := max_eq_left (by norm_num)
  rw [h1]
  have h2 : max (5 : ℚ) 10 = 10 := max_eq_right (by norm_num)
  rw [h2]
  norm_num

/-- C5 amended.  For every non-empty input, `convert_to_heikin_ashi`
returns a sequence of equal length with `ha_close[i] = (O+H+L+C)/4` at
every bar, `ha_open[0] = (open[0]+close[0])/2` but `ha_high[0] = high[0]`
and `ha_low[0] = low[0]` verbatim, and for every i ≥ 1 the recurrence
`ha_open[i] = (ha_open[i-1]+ha_close[i-1])/2`,
`ha_high[i] = max(high[i], ha_open[i], ha_close[i])`,
`ha_low[i] = min(low[i], ha_open[i], ha_close[i])`. -/
theorem heikin_ashi_recurrence (xs : List Candle) (hne : xs ≠ []) :
    (convert_to_heikin_ashi xs).length = xs.length ∧
    (∀ (i : ℕ) (x y : Candle), xs[i]? = some x →
        (convert_to_heikin_ashi xs)[i]? = some y →
        y.Close = (x.Open + x.High + x.Low + x.Close) / 4) ∧
    (∀ x y : Candle, xs[0]? = some x →
        (convert_to_heikin_ashi xs)[0]? = some y →
        y.Open = (x.Open + x.Close) / 2 ∧ y.High = x.High ∧ y.Low = x.Low) ∧
    (∀ (i : ℕ) (x y p : Candle), xs[i + 1]? = some x →
        (convert_to_heikin_ashi xs)[i + 1]? = some y →
        (convert_to_heikin_ashi xs)[i]? = some p →
        y.Open = (p.Open + p.Close) / 2 ∧
        y.High = max x.High (max y.Open y.Close) ∧
        y.Low = min x.Low (min y.Open y.Close)) := by
  refine ⟨convert_length xs, ?_, ?_, ?_⟩
  · intro i x y hx hy
    cases i with
    | zero =>
      cases xs with
      | nil => simp at hx
      | cons x0 rest =>
        simp only [List.getElem?_cons_zero, Option.some.injEq] at hx
        rw [convert_zero] at hy
        rw [Option.some.injEq] at hy
        subst hx
        subst hy
        rfl
    | succ j =>
      rw [convert_adj] at hy
      cases hp : (convert_to_heikin_ashi xs)[j]? with
      | none => rw [hp] at hy; simp at hy
      | some p =>
        rw [hp, hx] at hy
        simp only [Option.some_bind, Option.map_some'] at hy
        rw [Option.some.injEq] at hy
        subst hy
        rfl
  · intro x y hx hy
    cases xs with
    | nil => simp at hx
    | cons x0 rest =>
      simp only [List.getElem?_cons_zero, Option.some.injEq] at hx
      rw [convert_zero, Option.some.injEq] at hy
      subst hx
      subst hy
      exact ⟨rfl, rfl, rfl⟩
  · intro i x y p hx hy hp
    rw [convert_adj, hp, hx] at hy
    simp only [Option.some_bind, Option.map_some'] at hy
    rw [Option.some.injEq] at hy
    subst hy
    exact ⟨rfl, rfl, rfl⟩

/-- Witness for C5 at a concrete two-candle input. -/
theorem heikin_ashi_recurrence_witness :
    (convert_to_heikin_ashi [⟨1, 2, 0, 1⟩, ⟨2, 3, 1, 2⟩]).length
      = ([⟨1, 2, 0, 1⟩, ⟨2, 3, 1, 2⟩] : List Candle).length :=
  (heikin_ashi_recurrence [⟨1, 2, 0, 1⟩, ⟨2, 3, 1, 2⟩] (by decide)).1

/-- C9 counterexample.  Nothing raises an `InvalidInputError`: on the
empty input `convert_to_heikin_ashi` returns a value (the empty frame,
via the early `return df`), and the validating wrapper
`prepare_heikin_ashi_data` returns `None` rather than raising. -/
theorem convert_empty_returns_value :
    convert_to_heikin_ashi [] = [] ∧
    prepare_heikin_ashi_data [] = none := ⟨rfl, rfl⟩

/-- C9 amended.  Invalid input is signalled by a `None` return, not an
exception: `prepare_heikin_ashi_data` returns `None` exactly when
`is_valid_ohlc` rejects the frame (empty, a missing or non-numeric OHLC
field, or a negative price), and `convert_to_heikin_ashi` maps the empty
frame to itself instead of failing. -/
theorem prepare_rejects_invalid_without_exception :
    (∀ df : List RawCandle,
        prepare_heikin_ashi_data df = none ↔ is_valid_ohlc df = false) ∧
    convert_to_heikin_ashi [] = [] := by
  refine ⟨?_, rfl⟩
  intro df
  simp only [prepare_heikin_ashi_data]
  by_cases h1 : df.isEmpty
  · simp [h1, is_valid_ohlc]
  · by_cases h2 : is_valid_ohlc df
    · simp [h1, h2]
    · simp [h1, h2]

end ScalpHA

/-! ## Oscillator lemmas and theorems -/

namespace ScalpCipherB

open ScalpHA (Candle)

lemma emaGo_length (α p : ℚ) (xs : List ℚ) :
    (emaGo α p xs).length = xs.length := by
  induction xs generalizing p with
  | nil => rfl
  | cons x l ih => simp [emaGo, ih]

lemma ema_length (n : ℕ) (xs : List ℚ) : (ema n xs).length = xs.length := by
  cases xs with
  | nil => rfl
  | cons x l => simp [ema, emaGo_length]

lemma wt1_length (src : List Candle) (cfg : Config) :
    (wt1 src cfg).length = src.length := by
  simp [wt1, hlc3, ema_length, List.length_zipWith, List.length_zip,
    List.length_map]

lemma detect_buySignal_get (ha : List Candle) (cfg : Config) (i : ℕ)
    (hi : i < ha.length) :
    (detect_cipherb_signals ha cfg).buySignal[i]?
      = some (buySignalAt (w1A ha cfg) (w2A ha cfg) cfg.oversold_threshold i) := by
  simp only [detect_cipherb_signals, List.getElem?_map]
  rw [List.getElem?_range (by rw [wt1_length]; exact hi)]
  rfl

lemma detect_sellSignal_get (ha : List Candle) (cfg : Config) (i : ℕ)
    (hi : i < ha.length) :
    (detect_cipherb_signals ha cfg).sellSignal[i]?
      = some (sellSignalAt (w1A ha cfg) (w2A ha cfg) cfg.overbought_threshold i) := by
  simp only [detect_cipherb_signals, List.getElem?_map]
  rw [List.getElem?_range (by rw [wt1_length]; exact hi)]
  rfl

/-- C3.  Edge-triggered signals: at every bar the emitted
`buySignal`/`sellSignal` equals the compound condition AND NOT the
previous bar's condition (false before the first bar); consequently, on
any stretch of bars where the condition holds throughout and was false
just before, the signal fires exactly at the first bar of the stretch and
at none of the later ones. -/
theorem cipherb_edge_trigger (ha : List Candle) (cfg : Config) :
    (∀ i : ℕ, i < ha.length →
        (detect_cipherb_signals ha cfg).buySignal[i]?
          = some (buy_condition (w1A ha cfg) (w2A ha cfg) cfg.oversold_threshold i &&
              !(prevCond (buy_condition (w1A ha cfg) (w2A ha cfg) cfg.oversold_threshold) i)) ∧
        (detect_cipherb_signals ha cfg).sellSignal[i]?
          = some (sell_condition (w1A ha cfg) (w2A ha cfg) cfg.overbought_threshold i &&
              !(prevCond (sell_condition (w1A ha cfg) (w2A ha cfg) cfg.overbought_threshold) i))) ∧
    (∀ a b : ℕ, a ≤ b → b < ha.length →
        (∀ j : ℕ, a ≤ j → j ≤ b →
          buy_condition (w1A ha cfg) (w2A ha cfg) cfg.oversold_threshold j = true) →
        (a = 0 ∨ buy_condition (w1A ha cfg) (w2A ha cfg) cfg.oversold_threshold (a - 1) = false) →
        (detect_cipherb_signals ha cfg).buySignal[a]? = some true ∧
        ∀ j : ℕ, a < j → j ≤ b →
          (detect_cipherb_signals ha cfg).buySignal[j]? = some false) ∧
    (∀ a b : ℕ, a ≤ b → b < ha.length →
        (∀ j : ℕ, a ≤ j → j ≤ b →
          sell_condition (w1A ha cfg) (w2A ha cfg) cfg.overbought_threshold j = true) →
        (a = 0 ∨ sell_condition (w1A ha cfg) (w2A ha cfg) cfg.overbought_threshold (a - 1) = false) →
        (detect_cipherb_signals ha cfg).sellSignal[a]? = some true ∧
        ∀ j : ℕ, a < j → j ≤ b →
          (detect_cipherb_signals ha cfg).sellSignal[j]? = some false) := by
  refine ⟨?_, ?_, ?_⟩
  · intro i hi
    exact ⟨detect_buySignal_get ha cfg i hi, detect_sellSignal_get ha cfg i hi⟩
  · intro a b hab hb hcond hprev
    have ha' : a < ha.length := lt_of_le_of_lt hab hb
    constructor
    · rw [detect_buySignal_get ha cfg a ha']
      have hBa := hcond a le_rfl hab
      have hP : prevCond (buy_condition (w1A ha cfg) (w2A ha cfg)
          cfg.oversold_threshold) a = false := by
        cases a with
        | zero => rfl
        | succ k =>
          rcases hprev with h0 | hfalse
          · exact absurd h0 (Nat.succ_ne_zero k)
          · simpa [prevCond] using hfalse
      simp [buySignalAt, hBa, hP]
    · intro j hj1 hj2
      have hj : j < ha.length := lt_of_le_of_lt hj2 hb
      rw [detect_buySignal_get ha cfg j hj]
      cases j with
      | zero => omega
      | succ k =>
        have hk := hcond k (by omega) (by omega)
        simp [buySignalAt, prevCond, hk]
  · intro a b hab hb hcond hprev
    have ha' : a < ha.length := lt_of_le_of_lt hab hb
    constructor
    · rw [detect_sellSignal_get ha cfg a ha']
      have hSa := hcond a le_rfl hab
      have hP : prevCond (sell_condition (w1A ha cfg) (w2A ha cfg)
          cfg.overbought_threshold) a = false := by
        cases a with
        | zero => rfl
        | succ k =>
          rcases hprev with h0 | hfalse
          · exact absurd h0 (Nat.succ_ne_zero k)
          · simpa [prevCond] using hfalse
      simp [sellSignalAt, hSa, hP]
    · intro j hj1 hj2
      have hj : j < ha.length := lt_of_le_of_lt hj2 hb
      rw [detect_sellSignal_get ha cfg j hj]
      cases j with
      | zero => omega
      | succ k =>
        have hk := hcond k (by omega) (by omega)
        simp [sellSignalAt, prevCond, hk]

/-- Witness for C3: in the concrete `wiggle` series under `cfgEasy`, the
buy condition holds at bar 3 (and not at bar 2), the sell condition at
bar 2 (and not at bar 1), so the signals fire there. -/
theorem cipherb_edge_trigger_witness :
    (detect_cipherb_signals wiggle cfgEasy).buySignal[3]? = some true ∧
    (detect_cipherb_signals wiggle cfgEasy).sellSignal[2]? = some true := by
  constructor
  · refine ((cipherb_edge_trigger wiggle cfgEasy).2.1 3 3 le_rfl (by decide)
      (fun j h1 h2 => ?_) (Or.inr ?_)).1
    · have hj : j = 3 := le_antisymm h2 h1
      subst hj
      norm_num [buy_condition, cross_any, cross_up, oversold_current, oleB, oltB,
        diffLe0, w1A, w2A, wt1, hlc3, ema, emaGo, smaAt, wiggle, flat, cfgEasy,
        abs_of_nonneg]
    · norm_num [buy_condition, cross_any, cross_up, oversold_current, oleB, oltB,
        diffLe0, w1A, w2A, wt1, hlc3, ema, emaGo, smaAt, wiggle, flat, cfgEasy,
        abs_of_nonneg]
  · refine ((cipherb_edge_trigger wiggle cfgEasy).2.2 2 2 le_rfl (by decide)
      (fun j h1 h2 => ?_) (Or.inr ?_)).1
    · have hj : j = 2 := le_antisymm h2 h1
      subst hj
      norm_num [sell_condition, cross_any, cross_down, overbought_current, oleB, oltB,
        diffGe0, w1A, w2A, wt1, hlc3, ema, emaGo, smaAt, wiggle, flat, cfgEasy,
        abs_of_nonneg]
    · norm_num [sell_condition, cross_any, cross_down, overbought_current, oleB, oltB,
        diffGe0, w1A, w2A, wt1, hlc3, ema, emaGo, smaAt, wiggle, flat, cfgEasy,
        abs_of_nonneg]

/-- C4.  Mutual exclusivity: with `oversold_threshold < overbought_threshold`
no bar carries both a buy and a sell signal, because the oversold gate
forces `wt1 ≤ oversold` and the overbought gate `wt1 ≥ overbought`. -/
theorem cipherb_buy_sell_mutually_exclusive (ha : List Candle) (cfg : Config)
    (h : cfg.oversold_threshold < cfg.overbought_threshold) (i : ℕ) :
    ¬((detect_cipherb_signals ha cfg).buySignal[i]? = some true ∧
      (detect_cipherb_signals ha cfg).sellSignal[i]? = some true) := by
  rintro ⟨hb, hs⟩
  have hi : i < ha.length := by
    by_contra hge
    have hnone : (detect_cipherb_signals ha cfg).buySignal[i]? = none := by
      apply List.getElem?_eq_none
      simp only [detect_cipherb_signals, List.length_map, List.length_range,
        wt1_length]
      omega
    rw [hnone] at hb
    exact Option.noConfusion hb
  rw [detect_buySignal_get ha cfg i hi] at hb
  rw [detect_sellSignal_get ha cfg i hi] at hs
  rw [Option.some.injEq] at hb hs
  have hbc : buy_condition (w1A ha cfg) (w2A ha cfg) cfg.oversold_threshold i = true := by
    have := (Bool.and_eq_true _ _).mp hb
    exact this.1
  have hsc : sell_condition (w1A ha cfg) (w2A ha cfg) cfg.overbought_threshold i = true := by
    have := (Bool.and_eq_true _ _).mp hs
    exact this.1
  have hos : oversold_current (w1A ha cfg) (w2A ha cfg) cfg.oversold_threshold i = true := by
    have := (Bool.and_eq_true _ _).mp hbc
    exact this.2
  have hob : overbought_current (w1A ha cfg) (w2A ha cfg) cfg.overbought_threshold i = true := by
    have := (Bool.and_eq_true _ _).mp hsc
    exact this.2
  have h1 : oleB (w1A ha cfg i) (some cfg.oversold_threshold) = true :=
    ((Bool.and_eq_true _ _).mp hos).1
  have h2 : oleB (some cfg.overbought_threshold) (w1A ha cfg i) = true :=
    ((Bool.and_eq_true _ _).mp hob).2
  cases hw : w1A ha cfg i with
  | none =>
    rw [hw] at h1
    exact Bool.noConfusion h1
  | some x =>
    rw [hw] at h1 h2
    simp only [oleB, decide_eq_true_eq] at h1 h2
    linarith

/-- Witness for C4 at the default configuration. -/
theorem cipherb_buy_sell_mutually_exclusive_witness :
    ¬((detect_cipherb_signals wiggle cfgDefault).buySignal[0]? = some true ∧
      (detect_cipherb_signals wiggle cfgDefault).sellSignal[0]? = some true) :=
  cipherb_buy_sell_mutually_exclusive wiggle cfgDefault (by norm_num [cfgDefault]) 0

/-- C6 counterexample.  With wt1 = [0, 1] and wt2 = [1, 1] (equality on
the current bar), the code's `cross_any` reports NO cross at bar 1 —
its current-bar comparisons are strict — while the spec's ≤/≥-on-both-bars
formula reports one. -/
theorem cross_equality_current_bar_counterexample :
    cross_any (fun i => ([(0 : ℚ), 1])[i]?) (fun i => ([(1 : ℚ), 1])[i]?) 1 = false ∧
    cross_any_spec (fun i => ([(0 : ℚ), 1])[i]?) (fun i => ([(1 : ℚ), 1])[i]?) 1 = true := by
  constructor
  · simp [cross_any, oleB, oltB]
  · simp [cross_any_spec, oleB]

/-- C6 amended.  The code's cross detection is inclusive of equality on
the PREVIOUS bar only: a cross at bar i+1 holds exactly when
(wt1[i] ≤ wt2[i] and wt1[i+1] > wt2[i+1]) or
(wt1[i] ≥ wt2[i] and wt1[i+1] < wt2[i+1]) — the current-bar comparison is
strict, so equality of wt1 and wt2 on the current bar never counts as a
cross; and no cross is reported at bar 0. -/
theorem cross_detection_prev_inclusive_current_strict (w1 w2 : ℕ → Option ℚ)
    (j : ℕ) (a b c d : ℚ) (h1 : w1 j = some a) (h2 : w2 j = some b)
    (h3 : w1 (j + 1) = some c) (h4 : w2 (j + 1) = some d) :
    (cross_any w1 w2 (j + 1) = true ↔ ((a ≤ b ∧ d < c) ∨ (b ≤ a ∧ c < d))) ∧
    (c = d → cross_any w1 w2 (j + 1) = false) ∧
    cross_any w1 w2 0 = false := by
  refine ⟨?_, ?_, rfl⟩
  · simp [cross_any, h1, h2, h3, h4, oleB, oltB]
  · intro hcd
    subst hcd
    simp [cross_any, h1, h2, h3, h4, oleB, oltB]

/-- Witness for C6: with wt1 = [0, 2] and wt2 = [1, 1] the theorem's
characterization certifies a cross at bar 1. -/
theorem cross_detection_prev_inclusive_current_strict_witness :
    cross_any (fun i => ([(0 : ℚ), 2])[i]?) (fun i => ([(1 : ℚ), 1])[i]?) 1 = true := by
  have h := (cross_detection_prev_inclusive_current_strict
    (fun i => ([(0 : ℚ), 2])[i]?) (fun i => ([(1 : ℚ), 1])[i]?) 0
    0 1 2 1 (by simp) (by simp) (by simp) (by simp)).1
  exact h.mpr (Or.inl ⟨by norm_num, by norm_num⟩)

end ScalpCipherB

/-! ## Stage-2 confirmation theorems -/

namespace ScalpStage2

open ScalpStore

/-- C8 counterexample.  In the EMA (5m) confirmation variant, when the
candle fetch returns nothing the pending signal is NOT deleted:
`analyze_pending_signal` returns `None` and the processing loop moves on,
leaving the record in the store. -/
theorem stage2_ema_retains_on_fetch_failure :
    analyze_pending_signal_5m 9 18 none (Rec.direction recA) = none ∧
    step5m 9 18 none recA ⟨[recA], 2⟩ = ⟨[recA], 2⟩ ∧
    recA ∈ (step5m 9 18 none recA ⟨[recA], 2⟩).rows := by
  refine ⟨rfl, rfl, ?_⟩
  show recA ∈ [recA]
  exact List.mem_singleton.mpr rfl

/-- C8 amended.  Fail-closed deletion holds only for the VWMA (15m)
variant: there, a failed fetch or a failed VWMA computation deletes the
pending signal.  The EMA (5m) variant never mutates the store — on fetch
failure (or any other non-confirmation) it skips the signal and retains
it. -/
theorem stage2_fail_closed_vwma_only :
    (∀ (fetch : Option (List (ℚ × ℚ))) (p : Rec) (st : Store),
        (fetch = none ∨ ∃ df, fetch = some df ∧ calculate_vwma_21 df = none) →
        ∀ r ∈ (step15m fetch p st).1.rows, r.signal_id ≠ p.signal_id) ∧
    (∀ (fast slow : ℕ) (fetch : Option (List ℚ)) (p : Rec) (st : Store),
        step5m fast slow fetch p st = st) ∧
    (∀ (fast slow : ℕ) (dir : String),
        analyze_pending_signal_5m fast slow none dir = none) := by
  refine ⟨?_, ?_, ?_⟩
  · rintro fetch p st (rfl | ⟨df, rfl, hv⟩) r hr
    · simp only [step15m, delete_signal, List.mem_filter] at hr
      simpa using hr.2
    · simp only [step15m, hv, delete_signal, List.mem_filter] at hr
      simpa using hr.2
  · intro fast slow fetch p st
    unfold step5m
    split <;> rfl
  · intro fast slow dir
    rfl

/-- Witness for C8: with the fetch failing, the VWMA variant removes the
concrete record from a store holding exactly it, while the EMA variant
leaves the store unchanged. -/
theorem stage2_fail_closed_vwma_only_witness :
    recA ∉ (step15m none recA ⟨[recA], 2⟩).1.rows ∧
    step5m 9 18 none recA ⟨[recA], 2⟩ = ⟨[recA], 2⟩ := by
  constructor
  · intro hmem
    exact stage2_fail_closed_vwma_only.1 none recA ⟨[recA], 2⟩ (Or.inl rfl)
      recA hmem rfl
  · exact stage2_fail_closed_vwma_only.2.1 9 18 none recA ⟨[recA], 2⟩

end ScalpStage2
